import Mathlib

/-!
Shallow embedding of the request-lifecycle tracing layer of the
claude-code-router proxy (`src/utils/requestLogger.ts`,
`src/utils/httpInterceptor.ts`, and the server wiring in `src/index.ts`),
together with theorems settling the specification claims.

JavaScript strings are modelled as `List Char` (`Str`); JS string `length`,
`substring(0, n)` and `+` become `List.length`, `List.take n` and `++`.
-/

namespace CCR

open List

/-- JS strings, modelled as lists of characters. -/
abbrev Str := List Char

/-- Coerce a Lean string literal to the `Str` model. -/
def lit (s : String) : Str := s.data

/-- Acyclic JSON values, as produced by a successful `JSON.parse` and consumed
by `JSON.stringify`.  Numbers are modelled as integers (fractional parts play
no role in any claim). -/
inductive Json where
  | null : Json
  | bool (b : Bool) : Json
  | num (n : Int) : Json
  | str (s : Str) : Json
  | arr (elems : List Json) : Json
  | obj (fields : List (Str × Json)) : Json

/-- JavaScript runtime values as they flow through the logger's `body`
parameters.  `obj j` is a plain acyclic object/array (its `JSON.stringify`
succeeds and yields the serialization of `j`); `objCircular` stands for an
object on which `JSON.stringify` throws (e.g. a circular structure), the case
the source catches in `sanitizeBody`. -/
inductive JsVal where
  | undef : JsVal
  | null : JsVal
  | bool (b : Bool) : JsVal
  | num (n : Int) : JsVal
  | str (s : Str) : JsVal
  | obj (j : Json) : JsVal
  | objCircular : JsVal

/-- JS truthiness (`if (x)`): `undefined`, `null`, `false`, `0` and `""` are
falsy; every object is truthy. -/
def jsTruthy : JsVal → Bool
  | .undef => false
  | .null => false
  | .bool b => b
  | .num n => n != 0
  | .str s => !s.isEmpty
  | .obj _ => true
  | .objCircular => true

/-- String rendering of a JSON scalar key or string: surrounding quotes.
(Character escaping inside the quotes is not modelled; it is identical in the
compact and the pretty serialization, which is all the claims depend on.) -/
def jsonQuote (s : Str) : Str := '"' :: s ++ ['"']

/-- Decimal rendering of a JSON number. -/
def jsonNum (n : Int) : Str := (toString n).data

mutual

/-- `JSON.stringify(v)`: the compact serialization (no whitespace). -/
def stringifyCompact : Json → Str
  | .null => lit "null"
  | .bool true => lit "true"
  | .bool false => lit "false"
  | .num n => jsonNum n
  | .str s => jsonQuote s
  | .arr [] => lit "[]"
  | .arr (x :: xs) => '[' :: stringifyCompact x ++ compactItems xs ++ [']']
  | .obj [] => lit "\x7b\x7d"
  | .obj (f :: fs) => '\x7b' :: compactField f ++ compactFields fs ++ ['\x7d']

/-- Compact serialization of the remaining array elements, each preceded by a
comma. -/
def compactItems : List Json → Str
  | [] => []
  | x :: xs => ',' :: stringifyCompact x ++ compactItems xs

/-- Compact serialization of one object field: `"key":value`. -/
def compactField : Str × Json → Str
  | (k, v) => jsonQuote k ++ ':' :: stringifyCompact v

/-- Compact serialization of the remaining object fields, each preceded by a
comma. -/
def compactFields : List (Str × Json) → Str
  | [] => []
  | f :: fs => ',' :: compactField f ++ compactFields fs

end

/-- The two-space indentation prefix at nesting depth `d + 1`, as produced by
`JSON.stringify(v, null, 2)`. -/
def indentAt (d : Nat) : Str := List.replicate (2 * (d + 1)) ' '

mutual

/-- `JSON.stringify(v, null, 2)` at nesting depth `d`: the pretty
serialization with two-space indentation used by `sanitizeBody` for oversized
objects. -/
def stringifyPretty (d : Nat) : Json → Str
  | .null => lit "null"
  | .bool true => lit "true"
  | .bool false => lit "false"
  | .num n => jsonNum n
  | .str s => jsonQuote s
  | .arr [] => lit "[]"
  | .arr (x :: xs) =>
      '[' :: '\n' :: indentAt d ++ stringifyPretty (d + 1) x ++ prettyItems d xs
        ++ '\n' :: List.replicate (2 * d) ' ' ++ [']']
  | .obj [] => lit "\x7b\x7d"
  | .obj (f :: fs) =>
      '\x7b' :: '\n' :: indentAt d ++ prettyField d f ++ prettyFields d fs
        ++ '\n' :: List.replicate (2 * d) ' ' ++ ['\x7d']

/-- Pretty serialization of the remaining array elements at depth `d`: each is
preceded by `,\n` and the inner indentation. -/
def prettyItems (d : Nat) : List Json → Str
  | [] => []
  | x :: xs => ',' :: '\n' :: indentAt d ++ stringifyPretty (d + 1) x ++ prettyItems d xs

/-- Pretty serialization of one object field at depth `d`: `"key": value`. -/
def prettyField (d : Nat) : Str × Json → Str
  | (k, v) => jsonQuote k ++ ':' :: ' ' :: stringifyPretty (d + 1) v

/-- Pretty serialization of the remaining object fields at depth `d`. -/
def prettyFields (d : Nat) : List (Str × Json) → Str
  | [] => []
  | f :: fs => ',' :: '\n' :: indentAt d ++ prettyField d f ++ prettyFields d fs

end

example : stringifyCompact (.arr [.num 1, .null]) = lit "[1,null]" := rfl

example : stringifyPretty 0 (.arr [.num 1, .arr [.num 2]]) =
    lit "[\n  1,\n  [\n    2\n  ]\n]" := rfl

/-! ## JavaScript objects used as string-keyed maps

Header maps (`Record<string, any>`) are modelled as association lists in
property-insertion order, with unique keys.  `objGet` is JS property read
(absent keys read as `undefined`); `objSet` is JS property assignment
(overwrites in place when the key exists, appends otherwise). -/

/-- A JS object: keys in insertion order. -/
abbrev JsObj := List (Str × JsVal)

/-- Property read: `o[k]`, yielding `undefined` when `k` is absent. -/
def objGet (o : JsObj) (k : Str) : JsVal :=
  match o with
  | [] => .undef
  | (k', v) :: rest => if k' = k then v else objGet rest k

/-- Property assignment `o[k] = v`: replaces the value in place when the key
exists, otherwise appends the new property at the end. -/
def objSet (o : JsObj) (k : Str) (v : JsVal) : JsObj :=
  match o with
  | [] => [(k, v)]
  | (k', v') :: rest =>
      if k' = k then (k', v) :: rest else (k', v') :: objSet rest k v

/-! ## Sanitizer (`requestLogger.ts`, `sanitizeHeaders` / `sanitizeBody`) -/

/-- The sensitive header key `authorization` (exact lowercase, as the source
property access spells it). -/
def authKey : Str := lit "authorization"

/-- The sensitive header key `x-api-key`. -/
def apiKeyHeader : Str := lit "x-api-key"

/-- The fixed redaction marker `'[REDACTED]'`. -/
def REDACTED : Str := lit "[REDACTED]"

/-- The truncation marker appended to oversized bodies. -/
def TRUNCATED_SUFFIX : Str := lit "... [TRUNCATED]"

/-- The fixed marker substituted when `JSON.stringify` throws. -/
def UNPARSEABLE : Str := lit "[UNPARSEABLE OBJECT]"

/-- The body-size threshold (1000 UTF-16 units in the source). -/
def BODY_LIMIT : Nat := 1000

/-- `RequestLogger.sanitizeHeaders`: shallow-copies the header object, then
overwrites the `authorization` and `x-api-key` properties with the redaction
marker — but only when the property read is truthy (absent or falsy values
are left alone, and lookup is by the exact lowercase key). -/
def sanitizeHeaders (headers : JsObj) : JsObj :=
  let sanitized := headers
  let sanitized :=
    if jsTruthy (objGet sanitized (authKey)) then
      objSet sanitized (authKey) (.str REDACTED)
    else sanitized
  let sanitized :=
    if jsTruthy (objGet sanitized (apiKeyHeader)) then
      objSet sanitized (apiKeyHeader) (.str REDACTED)
    else sanitized
  sanitized

/-- `RequestLogger.sanitizeBody`: falsy bodies are returned as-is; a string
longer than 1000 units is truncated to its first 1000 units plus the
truncation marker; an object is compact-serialized, and when that
serialization exceeds 1000 units the *pretty* serialization
(`JSON.stringify(body, null, 2)`) is truncated instead (a failing
serialization degrades to the unparseable marker); everything else passes
through. -/
def sanitizeBody (body : JsVal) : JsVal :=
  if !jsTruthy body then body
  else
    match body with
    | .str s =>
        if s.length > BODY_LIMIT then .str (s.take BODY_LIMIT ++ TRUNCATED_SUFFIX)
        else .str s
    | .obj j =>
        let str := stringifyCompact j
        if str.length > BODY_LIMIT then
          .str ((stringifyPretty 0 j).take BODY_LIMIT ++ TRUNCATED_SUFFIX)
        else .obj j
    | .objCircular => .str UNPARSEABLE
    | other => other

/-! ## Record store (`requestLogger.ts`, class `RequestLogger`)

`logs` is a JS `Map<string, RequestLogEntry>`: association list in insertion
order, unique keys; `Map.set` overwrites in place, `Map.delete` removes the
keyed entry.  Timestamps are `new Date().toISOString()` strings compared with
`localeCompare`; ISO-8601 strings compare exactly in chronological order, so
they are modelled as `Nat` with `≤`.  The append-only `requests.jsonl` file
is modelled as the list of entries appended so far. -/

/-- The `routing` stage (`{tokenCount, selectedModel, routingReason}`). -/
structure Routing where
  tokenCount : Int
  selectedModel : Str
  routingReason : Str
deriving DecidableEq

/-- The `transformedRequest` stage. -/
structure TransformedRequest where
  url : Str
  method : Str
  headers : JsObj
  body : JsVal
  provider : Str

/-- The shape shared by the `providerResponse` and `response` stages. -/
structure StageResponse where
  status : Int
  headers : JsObj
  body : JsVal
  duration : Int

/-- The `error` stage. -/
structure ErrorInfo where
  message : Str
  stack : Option Str

/-- One `RequestLogEntry` record. -/
structure RequestLogEntry where
  id : Str
  timestamp : Nat
  method : Str
  url : Str
  originalRequestHeaders : JsObj
  originalRequestBody : JsVal
  routing : Routing
  transformedRequest : Option TransformedRequest
  providerResponse : Option StageResponse
  response : Option StageResponse
  error : Option ErrorInfo

/-- `generateRequestId` produces a fresh id; only its uniqueness matters, so
ids stay abstract `Str` values throughout. -/
def maxLogs : Nat := 1000

/-- Logger state: the in-memory `Map` plus the lines appended to
`requests.jsonl` so far. -/
structure LoggerState where
  logs : List (Str × RequestLogEntry)
  file : List RequestLogEntry

/-- The empty logger, as constructed at module load. -/
def LoggerState.init : LoggerState := ⟨[], []⟩

/-- `Map.prototype.get`. -/
def mapGet (m : List (Str × RequestLogEntry)) (id : Str) : Option RequestLogEntry :=
  match m with
  | [] => none
  | (k, v) :: rest => if k = id then some v else mapGet rest id

/-- `Map.prototype.set`: overwrites in place when the key exists, otherwise
appends at the end. -/
def mapSet (m : List (Str × RequestLogEntry)) (id : Str) (e : RequestLogEntry) :
    List (Str × RequestLogEntry) :=
  match m with
  | [] => [(id, e)]
  | (k, v) :: rest => if k = id then (k, e) :: rest else (k, v) :: mapSet rest id e

/-- `Map.prototype.delete`. -/
def mapDelete (m : List (Str × RequestLogEntry)) (id : Str) :
    List (Str × RequestLogEntry) :=
  match m with
  | [] => []
  | (k, v) :: rest => if k = id then rest else (k, v) :: mapDelete rest id

/-- In-place update of the entry stored under `id`, if any (JS mutates the
entry object obtained from `Map.get`, keeping its map position). -/
def mapUpdate (m : List (Str × RequestLogEntry)) (id : Str)
    (f : RequestLogEntry → RequestLogEntry) : List (Str × RequestLogEntry) :=
  m.map fun kv => if kv.1 = id then (kv.1, f kv.2) else kv

/-- The comparator of `cleanup`: ascending `timestamp.localeCompare`. -/
def tsLE (a b : Str × RequestLogEntry) : Bool :=
  a.2.timestamp ≤ b.2.timestamp

/-- `RequestLogger.cleanup`: once the map exceeds `maxLogs`, stable-sort its
entries by timestamp and delete the oldest surplus from the map. -/
def cleanup (logs : List (Str × RequestLogEntry)) : List (Str × RequestLogEntry) :=
  if logs.length > maxLogs then
    let entries := logs.mergeSort tsLE
    let toDelete := entries.take (entries.length - maxLogs)
    toDelete.foldl (fun m kv => mapDelete m kv.1) logs
  else logs

/-- `RequestLogger.writeToFile`: appends one serialized line (I/O failures are
caught and only reported, leaving the in-memory state unchanged; the model
keeps the successful-append behavior). -/
def writeToFile (st : LoggerState) (e : RequestLogEntry) : LoggerState :=
  { st with file := st.file ++ [e] }

/-- The entry object `logRequest` constructs: sanitized original request,
default/empty routing, all later stages unset. -/
def freshEntry (id : Str) (timestamp : Nat) (method url : Str)
    (headers : JsObj) (body : JsVal) : RequestLogEntry :=
  { id := id
    timestamp := timestamp
    method := method
    url := url
    originalRequestHeaders := sanitizeHeaders headers
    originalRequestBody := sanitizeBody body
    routing := ⟨0, [], []⟩
    transformedRequest := none
    providerResponse := none
    response := none
    error := none }

/-- `RequestLogger.logRequest`: unless capture is disabled
(`REQUEST_LOG === "false"`), unconditionally `set`s a fresh record (default
routing) under `id` and then runs `cleanup`. -/
def logRequest (disabled : Bool) (id : Str) (timestamp : Nat) (method url : Str)
    (headers : JsObj) (body : JsVal) (st : LoggerState) : LoggerState :=
  if disabled then st
  else
    { st with logs := cleanup (mapSet st.logs id (freshEntry id timestamp method url headers body)) }

/-- `RequestLogger.logRouting`: updates the routing stage of an existing
record; silently a no-op when `id` is unknown. -/
def logRouting (disabled : Bool) (id : Str) (tokenCount : Int)
    (selectedModel reason : Str) (st : LoggerState) : LoggerState :=
  if disabled then st
  else
    match mapGet st.logs id with
    | none => st
    | some _ =>
        { st with logs := mapUpdate st.logs id fun e =>
            { e with routing := ⟨tokenCount, selectedModel, reason⟩ } }

/-- `RequestLogger.logTransformedRequest`: sets the transformed-request stage
of an existing record (headers and body sanitized); no-op when unknown. -/
def logTransformedRequest (disabled : Bool) (id : Str) (url method : Str)
    (headers : JsObj) (body : JsVal) (provider : Str) (st : LoggerState) :
    LoggerState :=
  if disabled then st
  else
    match mapGet st.logs id with
    | none => st
    | some _ =>
        let tr : TransformedRequest :=
          ⟨url, method, sanitizeHeaders headers, sanitizeBody body, provider⟩
        { st with logs := mapUpdate st.logs id fun e =>
            { e with transformedRequest := some tr } }

/-- `RequestLogger.logProviderResponse`: sets the provider-response stage with
`duration = now - startTime`; no-op when unknown. -/
def logProviderResponse (disabled : Bool) (id : Str) (status : Int)
    (headers : JsObj) (body : JsVal) (startTime now : Int) (st : LoggerState) :
    LoggerState :=
  if disabled then st
  else
    match mapGet st.logs id with
    | none => st
    | some _ =>
        let pr : StageResponse :=
          ⟨status, sanitizeHeaders headers, sanitizeBody body, now - startTime⟩
        { st with logs := mapUpdate st.logs id fun e =>
            { e with providerResponse := some pr } }

/-- `RequestLogger.logResponse`: on an existing record, sets the final
response stage and appends the (mutated) record to the file — on every such
call, without any once-only guard.  No-op when `id` is unknown.  This path
has no `REQUEST_LOG` toggle check in the source. -/
def logResponse (id : Str) (status : Int) (headers : JsObj) (body : JsVal)
    (startTime now : Int) (st : LoggerState) : LoggerState :=
  match mapGet st.logs id with
  | none => st
  | some e =>
      let fr : StageResponse :=
        ⟨status, sanitizeHeaders headers, sanitizeBody body, now - startTime⟩
      let e' := { e with response := some fr }
      writeToFile { st with logs := mapUpdate st.logs id fun _ => e' } e'

/-- `RequestLogger.logError`: on an existing record, sets the error stage and
appends the (mutated) record to the file — again on every such call.  No-op
when `id` is unknown. -/
def logError (id : Str) (message : Str) (stack : Option Str) (st : LoggerState) :
    LoggerState :=
  match mapGet st.logs id with
  | none => st
  | some e =>
      let e' := { e with error := some ⟨message, stack⟩ }
      writeToFile { st with logs := mapUpdate st.logs id fun _ => e' } e'

/-- `RequestLogger.getRecentLogs`: records most-recent first, bounded. -/
def getRecentLogs (limit : Nat) (st : LoggerState) : List RequestLogEntry :=
  ((st.logs.map (·.2)).mergeSort fun a b => b.timestamp ≤ a.timestamp).take limit

/-- `RequestLogger.getLogById`. -/
def getLogById (id : Str) (st : LoggerState) : Option RequestLogEntry :=
  mapGet st.logs id

/-! ## `JSON.parse` model

The interceptor calls the platform's `JSON.parse` on accumulated body text
inside a `try`.  It is modelled as a fuel-bounded recursive-descent parser
over the same `Json` values (integer numbers, unescaped strings); `none`
models the thrown `SyntaxError`. -/

/-- JSON whitespace. -/
def isWsChar (c : Char) : Bool := c = ' ' || c = '\n' || c = '\t' || c = '\r'

/-- Skip leading whitespace. -/
def skipWs (s : Str) : Str := s.dropWhile isWsChar

/-- ASCII digit test. -/
def isDigitChar (c : Char) : Bool := '0' ≤ c && c ≤ '9'

/-- Decimal value of a digit run. -/
def digitsToNat (ds : Str) : Nat := ds.foldl (fun a c => a * 10 + (c.toNat - 48)) 0

/-- Read a string literal body up to (and consuming) the closing quote. -/
def readStringBody : Str → Option (Str × Str)
  | [] => none
  | c :: cs =>
      if c = '"' then some ([], cs)
      else
        match readStringBody cs with
        | some (body, rest) => some (c :: body, rest)
        | none => none

mutual

/-- Parse one JSON value, returning it with the unconsumed remainder. -/
def parseValue : Nat → Str → Option (Json × Str)
  | 0, _ => none
  | fuel + 1, input =>
      match skipWs input with
      | [] => none
      | c :: cs =>
          if c = 'n' then
            if (lit "ull").isPrefixOf cs then some (.null, cs.drop 3) else none
          else if c = 't' then
            if (lit "rue").isPrefixOf cs then some (.bool true, cs.drop 3) else none
          else if c = 'f' then
            if (lit "alse").isPrefixOf cs then some (.bool false, cs.drop 4) else none
          else if c = '"' then
            match readStringBody cs with
            | some (body, rest) => some (.str body, rest)
            | none => none
          else if c = '-' then
            match cs.takeWhile isDigitChar with
            | [] => none
            | ds => some (.num (-(digitsToNat ds : Int)), cs.dropWhile isDigitChar)
          else if isDigitChar c then
            some (.num (digitsToNat ((c :: cs).takeWhile isDigitChar)),
              (c :: cs).dropWhile isDigitChar)
          else if c = '[' then parseElems fuel cs
          else if c = '\x7b' then parseFields fuel cs
          else none

/-- Parse the elements of an array (opening bracket already consumed). -/
def parseElems : Nat → Str → Option (Json × Str)
  | 0, _ => none
  | fuel + 1, s =>
      match skipWs s with
      | ']' :: rest => some (.arr [], rest)
      | s' =>
          match parseValue fuel s' with
          | none => none
          | some (v, rest) =>
              match parseElemsTail fuel rest with
              | some (vs, rest') => some (.arr (v :: vs), rest')
              | none => none

/-- After one array element: either `]` ends the array or `,` continues. -/
def parseElemsTail : Nat → Str → Option (List Json × Str)
  | 0, _ => none
  | fuel + 1, s =>
      match skipWs s with
      | ']' :: rest => some ([], rest)
      | ',' :: rest =>
          match parseValue fuel rest with
          | none => none
          | some (v, rest') =>
              match parseElemsTail fuel rest' with
              | some (vs, rest'') => some (v :: vs, rest'')
              | none => none
      | _ => none

/-- Parse the fields of an object (opening brace already consumed). -/
def parseFields : Nat → Str → Option (Json × Str)
  | 0, _ => none
  | fuel + 1, s =>
      match skipWs s with
      | '\x7d' :: rest => some (.obj [], rest)
      | s' =>
          match parseOneField fuel s' with
          | none => none
          | some (kv, rest) =>
              match parseFieldsTail fuel rest with
              | some (kvs, rest') => some (.obj (kv :: kvs), rest')
              | none => none

/-- Parse one `"key": value` field. -/
def parseOneField : Nat → Str → Option ((Str × Json) × Str)
  | 0, _ => none
  | fuel + 1, s =>
      match skipWs s with
      | '"' :: cs =>
          match readStringBody cs with
          | none => none
          | some (key, rest) =>
              match skipWs rest with
              | ':' :: rest' =>
                  match parseValue fuel rest' with
                  | none => none
                  | some (v, rest'') => some ((key, v), rest'')
              | _ => none
      | _ => none

/-- After one object field: either `}` ends the object or `,` continues. -/
def parseFieldsTail : Nat → Str → Option (List (Str × Json) × Str)
  | 0, _ => none
  | fuel + 1, s =>
      match skipWs s with
      | '\x7d' :: rest => some ([], rest)
      | ',' :: rest =>
          match parseOneField fuel rest with
          | none => none
          | some (kv, rest') =>
              match parseFieldsTail fuel rest' with
              | some (kvs, rest'') => some (kv :: kvs, rest'')
              | none => none
      | _ => none

end

/-- `JSON.parse(text)`: parse one value and require only trailing whitespace
after it; `none` models the thrown `SyntaxError`. -/
def jsonParse (s : Str) : Option Json :=
  match parseValue (2 * s.length + 8) s with
  | some (j, rest) => if (skipWs rest).isEmpty then some j else none
  | none => none

example : jsonParse (lit "hello") = none := rfl

example : jsonParse (lit "\x7b\"model\": [1, true]\x7d") =
    some (.obj [(lit "model", .arr [.num 1, .bool true])]) := rfl

example : jsonParse (lit "\"from-A\"") = some (.str (lit "from-A")) := rfl

/-! ## Outbound call interceptor (`httpInterceptor.ts`) -/

/-- A parsed JSON value as the JS value `JSON.parse` returns. -/
def jsonToVal : Json → JsVal
  | .null => .null
  | .bool b => .bool b
  | .num n => .num n
  | .str s => .str s
  | .arr xs => .obj (.arr xs)
  | .obj fs => .obj (.obj fs)

/-- `body ? JSON.parse(body) : null` — an empty accumulated body yields
`null`; otherwise the parse result, `none` when `JSON.parse` throws. -/
def parseAccumulated (accumulated : Str) : Option JsVal :=
  if accumulated.isEmpty then some .null
  else (jsonParse accumulated).map jsonToVal

/-- Result of the overridden `req.end`: the logger state after the capture
attempt, the accumulated `interceptedReq.body`, and whether the original
`end` was forwarded (it always is — the `return originalEnd.call(...)` sits
outside the `try`). -/
structure EndResult where
  st : LoggerState
  interceptedBody : Str
  callForwarded : Bool

/-- The `req.end` override of `createInterceptor`: when a correlation id was
captured at call time, parse the accumulated request body and record the
transformed-request stage; a thrown `JSON.parse` is caught, a warning is
printed, and the capture is dropped.  The original `end` is always invoked. -/
def interceptEnd (disabled : Bool) (requestId : Option Str) (url method : Str)
    (headers : JsObj) (provider : Str) (accumulated : Str) (st : LoggerState) :
    EndResult :=
  let logged :=
    match requestId with
    | none => st
    | some rid =>
        match parseAccumulated accumulated with
        | some v => logTransformedRequest disabled rid url method headers v provider st
        | none => st
  ⟨logged, accumulated, true⟩

/-- The `res.on('end')` handler of `handleResponse`: when a correlation id was
captured, parse the accumulated response body and record the
provider-response stage; a thrown `JSON.parse` is caught and the capture is
dropped. -/
def interceptResponseEnd (disabled : Bool) (requestId : Option Str)
    (statusCode : Int) (headers : JsObj) (startTime now : Int)
    (accumulated : Str) (st : LoggerState) : LoggerState :=
  match requestId with
  | none => st
  | some rid =>
      match parseAccumulated accumulated with
      | some v => logProviderResponse disabled rid statusCode headers v startTime now st
      | none => st

/-! ## Correlation context under concurrency

`getCurrentRequestId` / `setCurrentRequestId` / `clearCurrentRequestId`
implement the correlation context as a single process-wide slot
(`(global as any).currentRequestId`).  The serving process interleaves the
units of work of concurrent inbound requests at asynchronous boundaries; each
`/v1/messages` unit of work runs, in program order, its `preHandler` (which
arms the slot with its own id), the `req.end` of the outbound provider call
it causes (which reads the slot), and its `onSend` hook (which clears the
slot).  A schedule is any interleaving of the atomic steps of the competing
units of work. -/

/-- The shared process state: the global slot plus the logger. -/
structure TraceState where
  currentRequestId : Option Str
  logger : LoggerState

/-- Atomic scheduler steps.  `origin` on `outbound` records which unit of
work *caused* the call (ghost information for the property); the interceptor
itself attributes the call only through the global slot. -/
inductive TraceStep where
  | arm (rid : Str)
  | outbound (origin : Str) (accumulated : Str)
  | disarm
deriving DecidableEq

/-- Fixed destination data of the modelled outbound provider call. -/
def provUrl : Str := lit "https://api.anthropic.com/v1/messages"

/-- Method of the modelled outbound call. -/
def provMethod : Str := lit "POST"

/-- Provider extracted by `extractProvider` for that destination. -/
def provName : Str := lit "anthropic"

/-- One atomic step: `arm` is `setCurrentRequestId`, `outbound` is the
intercepted `req.end` of a provider call reading `getCurrentRequestId`, and
`disarm` is `clearCurrentRequestId`. -/
def traceStep (disabled : Bool) (s : TraceState) : TraceStep → TraceState
  | .arm rid => { s with currentRequestId := some rid }
  | .outbound _origin accumulated =>
      { s with logger :=
          (interceptEnd disabled s.currentRequestId provUrl provMethod []
            provName accumulated s.logger).st }
  | .disarm => { s with currentRequestId := none }

/-- Run a schedule of interleaved steps. -/
def traceRun (disabled : Bool) (s : TraceState) (steps : List TraceStep) :
    TraceState :=
  steps.foldl (traceStep disabled) s

/-! ## Serialization length lemmas

The pretty serialization only ever adds whitespace around the tokens of the
compact one, so it is never shorter — needed because `sanitizeBody` tests the
threshold on the compact form but truncates the pretty form. -/

mutual

/-- The compact serialization is never longer than the pretty one. -/
theorem length_compact_le_pretty : ∀ (d : Nat) (j : Json),
    (stringifyCompact j).length ≤ (stringifyPretty d j).length
  | _, .null => Nat.le_refl _
  | _, .bool true => Nat.le_refl _
  | _, .bool false => Nat.le_refl _
  | _, .num _ => Nat.le_refl _
  | _, .str _ => Nat.le_refl _
  | _, .arr [] => Nat.le_refl _
  | d, .arr (x :: xs) => by
      have hx := length_compact_le_pretty (d + 1) x
      have hxs := length_compactItems_le_prettyItems d xs
      simp only [stringifyCompact, stringifyPretty, List.length_cons,
        List.length_append, indentAt, List.length_replicate, List.length_nil]
      omega
  | _, .obj [] => Nat.le_refl _
  | d, .obj (f :: fs) => by
      have hf := length_compactField_le_prettyField d f
      have hfs := length_compactFields_le_prettyFields d fs
      simp only [stringifyCompact, stringifyPretty, List.length_cons,
        List.length_append, indentAt, List.length_replicate, List.length_nil]
      omega

/-- Item-list version of `length_compact_le_pretty`. -/
theorem length_compactItems_le_prettyItems : ∀ (d : Nat) (xs : List Json),
    (compactItems xs).length ≤ (prettyItems d xs).length
  | _, [] => Nat.le_refl _
  | d, x :: xs => by
      have hx := length_compact_le_pretty (d + 1) x
      have hxs := length_compactItems_le_prettyItems d xs
      simp only [compactItems, prettyItems, List.length_cons, List.length_append,
        indentAt, List.length_replicate]
      omega

/-- Field version of `length_compact_le_pretty`. -/
theorem length_compactField_le_prettyField : ∀ (d : Nat) (f : Str × Json),
    (compactField f).length ≤ (prettyField d f).length
  | d, (k, v) => by
      have hv := length_compact_le_pretty (d + 1) v
      simp only [compactField, prettyField, jsonQuote, List.length_append,
        List.length_cons]
      omega

/-- Field-list version of `length_compact_le_pretty`. -/
theorem length_compactFields_le_prettyFields : ∀ (d : Nat) (fs : List (Str × Json)),
    (compactFields fs).length ≤ (prettyFields d fs).length
  | _, [] => Nat.le_refl _
  | d, f :: fs => by
      have hf := length_compactField_le_prettyField d f
      have hfs := length_compactFields_le_prettyFields d fs
      simp only [compactFields, prettyFields, List.length_cons, List.length_append,
        indentAt, List.length_replicate]
      omega

end

/-! ## `sanitizeBody` evaluation lemmas -/

/-- `sanitizeBody` on a string: truncate over the limit, else identity. -/
theorem sanitizeBody_str (s : Str) :
    sanitizeBody (.str s) =
      if s.length > BODY_LIMIT then .str (s.take BODY_LIMIT ++ TRUNCATED_SUFFIX)
      else .str s := by
  unfold sanitizeBody
  by_cases he : s = []
  · subst he
    simp [jsTruthy, BODY_LIMIT]
  · simp [jsTruthy, List.isEmpty_iff, he]

/-- `sanitizeBody` on a plain object: test the compact serialization against
the limit; over it, truncate the pretty serialization. -/
theorem sanitizeBody_obj (j : Json) :
    sanitizeBody (.obj j) =
      if (stringifyCompact j).length > BODY_LIMIT then
        .str ((stringifyPretty 0 j).take BODY_LIMIT ++ TRUNCATED_SUFFIX)
      else .obj j := by
  unfold sanitizeBody
  simp [jsTruthy]

/-- `sanitizeBody` on scalars that are neither strings nor objects is the
identity. -/
theorem sanitizeBody_num (n : Int) : sanitizeBody (.num n) = .num n := by
  show (if (!jsTruthy (.num n)) = true then JsVal.num n else JsVal.num n) = JsVal.num n
  exact ite_self _

/-! ## Map helper lemmas -/

/-- `mapSet` stores the new entry under its key. -/
theorem mapGet_mapSet_self (m : List (Str × RequestLogEntry)) (id : Str)
    (e : RequestLogEntry) : mapGet (mapSet m id e) id = some e := by
  induction m with
  | nil => simp [mapGet, mapSet]
  | cons kv rest ih =>
      obtain ⟨k, v⟩ := kv
      by_cases h : k = id
      · simp [mapGet, mapSet, h]
      · simp only [mapSet, if_neg h, mapGet]
        exact ih

/-- `mapSet` on a present key keeps the map's size. -/
theorem length_mapSet_of_isSome (m : List (Str × RequestLogEntry)) (id : Str)
    (e : RequestLogEntry) (h : (mapGet m id).isSome = true) :
    (mapSet m id e).length = m.length := by
  induction m with
  | nil => simp [mapGet] at h
  | cons kv rest ih =>
      obtain ⟨k, v⟩ := kv
      by_cases hk : k = id
      · simp [mapSet, hk]
      · simp only [mapSet, if_neg hk, List.length_cons]
        rw [ih ?_]
        simpa [mapGet, if_neg hk] using h

/-! ## JS object helper lemmas -/

/-- `objSet` stores the assigned value under its key. -/
theorem objGet_objSet_self (o : JsObj) (k : Str) (v : JsVal) :
    objGet (objSet o k v) k = v := by
  induction o with
  | nil => simp [objGet, objSet]
  | cons kv rest ih =>
      obtain ⟨k', v'⟩ := kv
      by_cases h : k' = k
      · simp [objGet, objSet, h]
      · simp only [objSet, if_neg h, objGet]
        exact ih

/-- `objSet` leaves reads of other keys unchanged. -/
theorem objGet_objSet_ne (o : JsObj) (k k' : Str) (v : JsVal) (h : k ≠ k') :
    objGet (objSet o k v) k' = objGet o k' := by
  induction o with
  | nil => simp [objGet, objSet, h]
  | cons kv rest ih =>
      obtain ⟨k'', v''⟩ := kv
      by_cases hk : k'' = k
      · subst hk
        simp [objGet, objSet, h]
      · simp only [objSet, if_neg hk, objGet]
        by_cases hk' : k'' = k'
        · simp [hk']
        · simp only [if_neg hk']
          exact ih

/-- Overwriting the same key twice keeps only the last assignment. -/
theorem objSet_objSet_same (o : JsObj) (k : Str) (v w : JsVal) :
    objSet (objSet o k v) k w = objSet o k w := by
  induction o with
  | nil => simp [objSet]
  | cons kv rest ih =>
      obtain ⟨k', v'⟩ := kv
      by_cases h : k' = k
      · simp [objSet, h]
      · simp only [objSet, if_neg h]
        rw [ih]

/-- Assignments to distinct *present* keys commute (present keys are
overwritten in place, so neither assignment appends). -/
theorem objSet_comm_of_mem (k k' : Str) (v w : JsVal) (hne : k ≠ k') :
    ∀ o : JsObj, k ∈ o.map Prod.fst → k' ∈ o.map Prod.fst →
      objSet (objSet o k v) k' w = objSet (objSet o k' w) k v := by
  intro o
  induction o with
  | nil =>
      intro hk _
      simp at hk
  | cons kv rest ih =>
      intro hk hk'
      obtain ⟨k0, v0⟩ := kv
      by_cases h0 : k0 = k
      · subst h0
        simp [objSet, hne]
      · by_cases h0' : k0 = k'
        · subst h0'
          simp [objSet, h0]
        · simp only [List.map_cons, List.mem_cons] at hk hk'
          rcases hk with hk | hk
          · exact absurd hk.symm h0
          rcases hk' with hk' | hk'
          · exact absurd hk'.symm h0'
          simp only [objSet, if_neg h0, if_neg h0']
          rw [ih hk hk']

/-- Reading an absent key yields `undefined`. -/
theorem objGet_eq_undef_of_not_mem (o : JsObj) (k : Str)
    (h : k ∉ o.map Prod.fst) : objGet o k = .undef := by
  induction o with
  | nil => rfl
  | cons kv rest ih =>
      simp only [List.map_cons, List.mem_cons] at h
      push_neg at h
      simp only [objGet, if_neg (fun hh : kv.1 = k => h.1 hh.symm)]
      exact ih h.2

/-- A truthy property read implies the key is present. -/
theorem mem_of_objGet_truthy (o : JsObj) (k : Str)
    (h : jsTruthy (objGet o k) = true) : k ∈ o.map Prod.fst := by
  by_contra hmem
  rw [objGet_eq_undef_of_not_mem o k hmem] at h
  simp [jsTruthy] at h

/-- Assignment to a present key preserves the key list. -/
theorem keys_objSet_of_mem (o : JsObj) (k : Str) (v : JsVal)
    (h : k ∈ o.map Prod.fst) : (objSet o k v).map Prod.fst = o.map Prod.fst := by
  induction o with
  | nil => simp at h
  | cons kv rest ih =>
      by_cases hk : kv.1 = k
      · simp [objSet, hk]
      · simp only [List.map_cons, List.mem_cons] at h
        rcases h with h | h
        · exact absurd h.symm hk
        · simp only [objSet, if_neg hk, List.map_cons]
          rw [ih h]

/-- The redaction marker is truthy (a non-empty string). -/
theorem jsTruthy_redacted : jsTruthy (.str REDACTED) = true := by decide

/-- Pointwise description of `sanitizeHeaders`: only reads of the exact
lowercase keys `authorization` / `x-api-key` change, and only when the
original value was truthy. -/
theorem objGet_sanitizeHeaders (h : JsObj) (k : Str) :
    objGet (sanitizeHeaders h) k =
      if (k = authKey ∨ k = apiKeyHeader) ∧
          jsTruthy (objGet h k) = true
      then .str REDACTED else objGet h k := by
  have hax : authKey ≠ apiKeyHeader := by decide
  simp only [sanitizeHeaders]
  by_cases h1 : jsTruthy (objGet h (authKey)) = true
  · rw [if_pos h1, objGet_objSet_ne _ _ _ _ hax]
    by_cases h2 : jsTruthy (objGet h (apiKeyHeader)) = true
    · rw [if_pos h2]
      by_cases hkx : k = apiKeyHeader
      · subst hkx
        rw [objGet_objSet_self, if_pos ⟨Or.inr rfl, h2⟩]
      · rw [objGet_objSet_ne _ _ _ _ (fun hh => hkx hh.symm)]
        by_cases hka : k = authKey
        · subst hka
          rw [objGet_objSet_self, if_pos ⟨Or.inl rfl, h1⟩]
        · rw [objGet_objSet_ne _ _ _ _ (fun hh => hka hh.symm),
            if_neg (fun hc => hc.1.elim hka hkx)]
    · rw [if_neg h2]
      by_cases hka : k = authKey
      · subst hka
        rw [objGet_objSet_self, if_pos ⟨Or.inl rfl, h1⟩]
      · rw [objGet_objSet_ne _ _ _ _ (fun hh => hka hh.symm)]
        rw [if_neg]
        rintro ⟨hk, ht⟩
        rcases hk with hk | hk
        · exact hka hk
        · subst hk
          exact h2 ht
  · rw [if_neg h1]
    by_cases h2 : jsTruthy (objGet h (apiKeyHeader)) = true
    · rw [if_pos h2]
      by_cases hkx : k = apiKeyHeader
      · subst hkx
        rw [objGet_objSet_self, if_pos ⟨Or.inr rfl, h2⟩]
      · rw [objGet_objSet_ne _ _ _ _ (fun hh => hkx hh.symm)]
        rw [if_neg]
        rintro ⟨hk, ht⟩
        rcases hk with hk | hk
        · subst hk
          exact h1 ht
        · exact hkx hk
    · rw [if_neg h2, if_neg]
      rintro ⟨hk, ht⟩
      rcases hk with hk | hk
      · subst hk
        exact h1 ht
      · subst hk
        exact h2 ht

/-- `sanitizeHeaders` preserves the key list (it only ever overwrites
present keys in place). -/
theorem keys_sanitizeHeaders (h : JsObj) :
    (sanitizeHeaders h).map Prod.fst = h.map Prod.fst := by
  have hax : authKey ≠ apiKeyHeader := by decide
  simp only [sanitizeHeaders]
  by_cases h1 : jsTruthy (objGet h (authKey)) = true
  · rw [if_pos h1]
    have hkeys1 : (objSet h (authKey) (.str REDACTED)).map Prod.fst
        = h.map Prod.fst :=
      keys_objSet_of_mem _ _ _ (mem_of_objGet_truthy _ _ h1)
    rw [objGet_objSet_ne _ _ _ _ hax]
    by_cases h2 : jsTruthy (objGet h (apiKeyHeader)) = true
    · rw [if_pos h2]
      rw [keys_objSet_of_mem, hkeys1]
      rw [hkeys1]
      exact mem_of_objGet_truthy _ _ h2
    · rw [if_neg h2]
      exact hkeys1
  · rw [if_neg h1]
    by_cases h2 : jsTruthy (objGet h (apiKeyHeader)) = true
    · rw [if_pos h2]
      exact keys_objSet_of_mem _ _ _ (mem_of_objGet_truthy _ _ h2)
    · rw [if_neg h2]

/-! ## Eviction lemmas (`cleanup`) -/

/-- The eviction comparator is transitive. -/
theorem tsLE_trans : ∀ a b c : Str × RequestLogEntry,
    tsLE a b → tsLE b c → tsLE a c := by
  intro a b c h1 h2
  simp only [tsLE, decide_eq_true_eq] at *
  omega

/-- The eviction comparator is total. -/
theorem tsLE_total : ∀ a b : Str × RequestLogEntry, tsLE a b || tsLE b a := by
  intro a b
  simp only [tsLE]
  by_cases h : a.2.timestamp ≤ b.2.timestamp
  · simp [h]
  · simp [h, Nat.le_of_not_le h]

/-- `mapDelete` only removes entries. -/
theorem mapDelete_sublist (m : List (Str × RequestLogEntry)) (k : Str) :
    mapDelete m k <+ m := by
  induction m with
  | nil => simp [mapDelete]
  | cons kv rest ih =>
      obtain ⟨k0, v0⟩ := kv
      by_cases h : k0 = k
      · simp only [mapDelete, if_pos h]
        exact List.sublist_cons_self (k0, v0) rest
      · simp only [mapDelete, if_neg h]
        exact ih.cons₂ (k0, v0)

/-- Entries under a different key survive `mapDelete`. -/
theorem mem_mapDelete_of_ne (m : List (Str × RequestLogEntry)) (k : Str)
    (kv : Str × RequestLogEntry) (h : kv ∈ m) (hne : kv.1 ≠ k) :
    kv ∈ mapDelete m k := by
  induction m with
  | nil => simp at h
  | cons kv0 rest ih =>
      obtain ⟨k0, v0⟩ := kv0
      rcases List.mem_cons.mp h with h | h
      · subst h
        simp only [mapDelete, if_neg hne]
        exact List.mem_cons_self _ _
      · by_cases h0 : k0 = k
        · simp only [mapDelete, if_pos h0]
          exact h
        · simp only [mapDelete, if_neg h0]
          exact List.mem_cons_of_mem _ (ih h)

/-- With unique keys, deleting the key of a present entry removes exactly
that entry, up to permutation. -/
theorem perm_cons_mapDelete (m : List (Str × RequestLogEntry))
    (kv : Str × RequestLogEntry) (hnd : (m.map Prod.fst).Nodup) (h : kv ∈ m) :
    m ~ kv :: mapDelete m kv.1 := by
  induction m with
  | nil => simp at h
  | cons kv0 rest ih =>
      obtain ⟨k0, v0⟩ := kv0
      by_cases h0 : k0 = kv.1
      · have hkv : kv = (k0, v0) := by
          rcases List.mem_cons.mp h with h | h
          · exact h
          · exfalso
            have hm : kv.1 ∈ rest.map Prod.fst := List.mem_map_of_mem Prod.fst h
            rw [← h0] at hm
            simp only [List.map_cons, List.nodup_cons] at hnd
            exact hnd.1 hm
        subst hkv
        have hdel : mapDelete ((k0, v0) :: rest) (k0, v0).1 = rest := by
          simp [mapDelete]
        rw [hdel]
      · have hkv : kv ∈ rest := by
          rcases List.mem_cons.mp h with h | h
          · exact absurd (congrArg Prod.fst h).symm h0
          · exact h
        simp only [List.map_cons, List.nodup_cons] at hnd
        have hperm := ih hnd.2 hkv
        have hdel : mapDelete ((k0, v0) :: rest) kv.1
            = (k0, v0) :: mapDelete rest kv.1 := by
          simp [mapDelete, h0]
        rw [hdel]
        calc (k0, v0) :: rest
            ~ (k0, v0) :: (kv :: mapDelete rest kv.1) := hperm.cons _
          _ ~ kv :: (k0, v0) :: mapDelete rest kv.1 := List.Perm.swap _ _ _

/-- Deleting a list of distinct present keys splits the map, up to
permutation, into the deleted entries and the remainder. -/
theorem perm_foldl_mapDelete : ∀ (del m : List (Str × RequestLogEntry)),
    (m.map Prod.fst).Nodup → (del.map Prod.fst).Nodup →
    (∀ kv ∈ del, kv ∈ m) →
    m ~ del ++ del.foldl (fun acc kv => mapDelete acc kv.1) m := by
  intro del
  induction del with
  | nil =>
      intro m _ _ _
      simp
  | cons kv del' ih =>
      intro m hndm hnddel hmem
      have hkv : kv ∈ m := hmem kv (List.mem_cons_self _ _)
      have h1 : m ~ kv :: mapDelete m kv.1 := perm_cons_mapDelete m kv hndm hkv
      simp only [List.map_cons, List.nodup_cons] at hnddel
      have hndm' : ((mapDelete m kv.1).map Prod.fst).Nodup :=
        hndm.sublist ((mapDelete_sublist m kv.1).map Prod.fst)
      have hmem' : ∀ kv' ∈ del', kv' ∈ mapDelete m kv.1 := by
        intro kv' hkv'
        refine mem_mapDelete_of_ne _ _ _ (hmem kv' (List.mem_cons_of_mem _ hkv')) ?_
        intro hcontr
        exact hnddel.1 (hcontr ▸ List.mem_map_of_mem Prod.fst hkv')
      have h2 := ih (mapDelete m kv.1) hndm' hnddel.2 hmem'
      calc m ~ kv :: mapDelete m kv.1 := h1
        _ ~ kv :: (del' ++ del'.foldl (fun acc kv => mapDelete acc kv.1)
              (mapDelete m kv.1)) := h2.cons _
        _ = (kv :: del') ++ (kv :: del').foldl (fun acc kv => mapDelete acc kv.1) m := by
              simp [List.foldl_cons]

/-- In a pairwise-ordered list, every element of the prefix relates to every
element of the corresponding suffix. -/
theorem pairwise_take_drop {α : Type} {R : α → α → Prop} {l : List α}
    (h : l.Pairwise R) (n : Nat) :
    ∀ a ∈ l.take n, ∀ b ∈ l.drop n, R a b := by
  have h' : (l.take n ++ l.drop n).Pairwise R := by
    rw [List.take_append_drop]
    exact h
  exact (List.pairwise_append.mp h').2.2

/-- Specification of `cleanup` past capacity: the store shrinks to exactly
`maxLogs` records, the survivors are (up to permutation) the suffix of the
stable timestamp sort, and every evicted record's timestamp is at most every
survivor's. -/
theorem cleanup_spec (logs : List (Str × RequestLogEntry))
    (hnd : (logs.map Prod.fst).Nodup) (hgt : logs.length > maxLogs) :
    (cleanup logs).length = maxLogs ∧
    cleanup logs ~ (logs.mergeSort tsLE).drop ((logs.mergeSort tsLE).length - maxLogs) ∧
    (∀ d ∈ (logs.mergeSort tsLE).take ((logs.mergeSort tsLE).length - maxLogs),
       ∀ e ∈ cleanup logs, d.2.timestamp ≤ e.2.timestamp) := by
  have hperm : logs.mergeSort tsLE ~ logs := List.mergeSort_perm logs tsLE
  have hlenE : (logs.mergeSort tsLE).length = logs.length := hperm.length_eq
  have hcl : cleanup logs =
      ((logs.mergeSort tsLE).take ((logs.mergeSort tsLE).length - maxLogs)).foldl
        (fun m kv => mapDelete m kv.1) logs := by
    unfold cleanup
    rw [if_pos hgt]
  have hndE : ((logs.mergeSort tsLE).map Prod.fst).Nodup :=
    ((hperm.map Prod.fst).nodup_iff).mpr hnd
  have hndDel : (((logs.mergeSort tsLE).take
      ((logs.mergeSort tsLE).length - maxLogs)).map Prod.fst).Nodup :=
    hndE.sublist ((List.take_sublist _ _).map _)
  have hmemDel : ∀ kv ∈ (logs.mergeSort tsLE).take
      ((logs.mergeSort tsLE).length - maxLogs), kv ∈ logs := by
    intro kv hkv
    exact hperm.mem_iff.mp (List.mem_of_mem_take hkv)
  have hmain : logs ~ (logs.mergeSort tsLE).take
      ((logs.mergeSort tsLE).length - maxLogs) ++ cleanup logs := by
    rw [hcl]
    exact perm_foldl_mapDelete _ logs hnd hndDel hmemDel
  have hlenDel : ((logs.mergeSort tsLE).take
      ((logs.mergeSort tsLE).length - maxLogs)).length
      = (logs.mergeSort tsLE).length - maxLogs := by
    rw [List.length_take]
    omega
  have hlencl : (cleanup logs).length = maxLogs := by
    have hlen1 := hmain.length_eq
    rw [List.length_append, hlenDel] at hlen1
    omega
  have hsplit : (logs.mergeSort tsLE).take ((logs.mergeSort tsLE).length - maxLogs)
      ++ (logs.mergeSort tsLE).drop ((logs.mergeSort tsLE).length - maxLogs)
      = logs.mergeSort tsLE := List.take_append_drop _ _
  have h3 : (logs.mergeSort tsLE).take ((logs.mergeSort tsLE).length - maxLogs)
      ++ (logs.mergeSort tsLE).drop ((logs.mergeSort tsLE).length - maxLogs)
      ~ (logs.mergeSort tsLE).take ((logs.mergeSort tsLE).length - maxLogs)
      ++ cleanup logs :=
    (List.Perm.of_eq hsplit).trans (hperm.trans hmain)
  have hdropperm : (logs.mergeSort tsLE).drop ((logs.mergeSort tsLE).length - maxLogs)
      ~ cleanup logs := (List.perm_append_left_iff _).mp h3
  refine ⟨hlencl, hdropperm.symm, ?_⟩
  intro d hd e he
  have hsorted : (logs.mergeSort tsLE).Pairwise (fun a b => tsLE a b) :=
    List.sorted_mergeSort tsLE_trans tsLE_total logs
  have hTD := pairwise_take_drop hsorted ((logs.mergeSort tsLE).length - maxLogs)
  have he' : e ∈ (logs.mergeSort tsLE).drop ((logs.mergeSort tsLE).length - maxLogs) :=
    hdropperm.mem_iff.mpr he
  have := hTD d hd e he'
  simpa [tsLE] using this

/-- Stability of the eviction choice: when an evicted record ties on
timestamp with a record that was inserted *earlier*, that earlier record is
evicted too — the stable sort breaks ties by insertion order. -/
theorem take_mergeSort_stable (l : List (Str × RequestLogEntry))
    (hnd : l.Nodup) (k : Nat) (d e : Str × RequestLogEntry)
    (hsub : [e, d] <+ l) (hts : e.2.timestamp = d.2.timestamp)
    (hd : d ∈ (l.mergeSort tsLE).take k) : e ∈ (l.mergeSort tsLE).take k := by
  have hle : tsLE e d := by
    simp [tsLE, hts]
  have hpair : [e, d] <+ l.mergeSort tsLE :=
    List.pair_sublist_mergeSort tsLE_trans tsLE_total hle hsub
  have hndS : (l.mergeSort tsLE).Nodup :=
    ((List.mergeSort_perm l tsLE).nodup_iff).mpr hnd
  obtain ⟨r₁, r₂, hsplit, he₁, hd₂⟩ := List.cons_sublist_iff.mp hpair
  have hd2 : d ∈ r₂ := List.singleton_sublist.mp hd₂
  by_cases hcase : r₁.length ≤ k
  · rw [hsplit, List.take_append_eq_append_take, List.take_of_length_le hcase]
    exact List.mem_append_left _ he₁
  · exfalso
    push_neg at hcase
    rw [hsplit, List.take_append_eq_append_take,
      Nat.sub_eq_zero_of_le (Nat.le_of_lt hcase), List.take_zero,
      List.append_nil] at hd
    have hd1 : d ∈ r₁ := List.mem_of_mem_take hd
    have hdisj := List.disjoint_of_nodup_append (hsplit ▸ hndS)
    exact hdisj hd1 hd2

/-- `mapSet` keys are the old keys, possibly with the new key appended. -/
theorem mem_keys_mapSet (m : List (Str × RequestLogEntry)) (id : Str)
    (e : RequestLogEntry) (k : Str) (h : k ∈ (mapSet m id e).map Prod.fst) :
    k ∈ m.map Prod.fst ∨ k = id := by
  induction m with
  | nil =>
      simp only [mapSet, List.map_cons, List.map_nil, List.mem_singleton] at h
      exact Or.inr h
  | cons kv rest ih =>
      obtain ⟨k0, v0⟩ := kv
      by_cases h0 : k0 = id
      · simp only [mapSet, if_pos h0, List.map_cons, List.mem_cons] at h ⊢
        rcases h with h | h
        · exact Or.inl (Or.inl h)
        · exact Or.inl (Or.inr h)
      · simp only [mapSet, if_neg h0, List.map_cons, List.mem_cons] at h ⊢
        rcases h with h | h
        · exact Or.inl (Or.inl h)
        · rcases ih h with h | h
          · exact Or.inl (Or.inr h)
          · exact Or.inr h

/-- `mapSet` preserves key uniqueness. -/
theorem nodup_keys_mapSet (m : List (Str × RequestLogEntry)) (id : Str)
    (e : RequestLogEntry) (hnd : (m.map Prod.fst).Nodup) :
    ((mapSet m id e).map Prod.fst).Nodup := by
  induction m with
  | nil => simp [mapSet]
  | cons kv rest ih =>
      obtain ⟨k0, v0⟩ := kv
      simp only [List.map_cons, List.nodup_cons] at hnd
      by_cases h0 : k0 = id
      · simp only [mapSet, if_pos h0, List.map_cons, List.nodup_cons]
        exact ⟨hnd.1, hnd.2⟩
      · simp only [mapSet, if_neg h0, List.map_cons, List.nodup_cons]
        refine ⟨?_, ih hnd.2⟩
        intro hcontr
        rcases mem_keys_mapSet rest id e k0 hcontr with h | h
        · exact hnd.1 h
        · exact h0 h

/-! ## Claim theorems -/

/-- C3 counterexample: a header map carrying `Authorization` (capital A) and
an `x-api-key` whose value is the empty string passes through `sanitizeHeaders`
completely unchanged — the claimed case-insensitive redaction does not happen
(lookup is by the exact lowercase key, and falsy values are never replaced). -/
theorem sanitizeHeaders_case_counterexample :
    let hs : JsObj := [(lit "Authorization", .str (lit "secret")),
                       (apiKeyHeader, .str (lit ""))]
    sanitizeHeaders hs = hs ∧
    objGet (sanitizeHeaders hs) (lit "Authorization") = .str (lit "secret") ∧
    lit "secret" ≠ REDACTED ∧
    objGet (sanitizeHeaders hs) (apiKeyHeader) = .str (lit "") ∧
    lit "" ≠ REDACTED :=
  ⟨rfl, rfl, by decide, rfl, by decide⟩

/-- C3 amended: `sanitizeHeaders` replaces the value of a key only when the
key is *exactly* the lowercase `authorization` or `x-api-key` *and* its value
is truthy; every other entry — including other-cased variants of the
sensitive names and falsy-valued sensitive keys — maps through unchanged, and
the key list is preserved. -/
theorem sanitizeHeaders_exact_lowercase (h : JsObj) :
    (∀ k : Str, k ≠ authKey → k ≠ apiKeyHeader →
       objGet (sanitizeHeaders h) k = objGet h k) ∧
    (∀ k : Str, (k = authKey ∨ k = apiKeyHeader) →
       objGet (sanitizeHeaders h) k =
         if jsTruthy (objGet h k) = true then .str REDACTED else objGet h k) ∧
    (sanitizeHeaders h).map Prod.fst = h.map Prod.fst := by
  refine ⟨fun k hka hkx => ?_, fun k hk => ?_, keys_sanitizeHeaders h⟩
  · rw [objGet_sanitizeHeaders, if_neg]
    rintro ⟨hc, -⟩
    exact hc.elim hka hkx
  · rw [objGet_sanitizeHeaders]
    by_cases ht : jsTruthy (objGet h k) = true
    · rw [if_pos ⟨hk, ht⟩, if_pos ht]
    · rw [if_neg (fun hc => ht hc.2), if_neg ht]

/-- Witness for C3's amended theorem: a lowercase truthy `authorization`
header is redacted, an uppercase one passes through. -/
theorem sanitizeHeaders_exact_lowercase_witness :
    objGet (sanitizeHeaders [(authKey, .str (lit "secret"))])
      (authKey) =
      (if jsTruthy (objGet [(authKey, .str (lit "secret"))]
          (authKey)) = true
       then .str REDACTED
       else objGet [(authKey, .str (lit "secret"))] (authKey)) ∧
    objGet (sanitizeHeaders [(authKey, .str (lit "secret"))])
      (lit "Authorization") =
      objGet [(authKey, .str (lit "secret"))] (lit "Authorization") := by
  exact ⟨(sanitizeHeaders_exact_lowercase
            [(authKey, .str (lit "secret"))]).2.1
          (authKey) (Or.inl rfl),
         (sanitizeHeaders_exact_lowercase
            [(authKey, .str (lit "secret"))]).1
          (lit "Authorization") (by decide) (by decide)⟩

/-- C10: `sanitizeBody` returns every falsy body (`null`, `undefined`, the
empty string, `0`, `false`) unchanged — no truncation, no serialization, and
never the unparseable marker. -/
theorem sanitizeBody_falsy_id (b : JsVal) (h : jsTruthy b = false) :
    sanitizeBody b = b := by
  unfold sanitizeBody
  rw [h]
  simp

/-- Witness for C10 at each concrete falsy input. -/
theorem sanitizeBody_falsy_id_witness :
    sanitizeBody .null = .null ∧ sanitizeBody .undef = .undef ∧
    sanitizeBody (.str []) = .str [] ∧ sanitizeBody (.num 0) = .num 0 ∧
    sanitizeBody (.bool false) = .bool false :=
  ⟨sanitizeBody_falsy_id _ rfl, sanitizeBody_falsy_id _ rfl,
   sanitizeBody_falsy_id _ rfl, sanitizeBody_falsy_id _ rfl,
   sanitizeBody_falsy_id _ rfl⟩

/-- C5: every stage-mutating operation invoked with an id absent from the
store returns the state unchanged — no error, no record created, nothing
persisted. -/
theorem unknown_id_mutation_noop (st : LoggerState) (id : Str)
    (h : mapGet st.logs id = none) (disabled : Bool) (tc : Int)
    (model reason url method provider msg : Str) (headers : JsObj)
    (body : JsVal) (status t0 t1 : Int) (stack : Option Str) :
    logRouting disabled id tc model reason st = st ∧
    logTransformedRequest disabled id url method headers body provider st = st ∧
    logProviderResponse disabled id status headers body t0 t1 st = st ∧
    logResponse id status headers body t0 t1 st = st ∧
    logError id msg stack st = st := by
  unfold logRouting logTransformedRequest logProviderResponse logResponse logError
  rw [h]
  cases disabled <;> simp

/-- Witness for C5: mutating an id on the empty store is a no-op. -/
theorem unknown_id_mutation_noop_witness :
    logResponse (lit "ghost") 200 [] .undef 0 1 LoggerState.init = LoggerState.init :=
  (unknown_id_mutation_noop LoggerState.init (lit "ghost") rfl false 0
    [] [] [] [] [] [] [] .undef 200 0 1 none).2.2.2.1

/-- C2 counterexample: after `logResponse` and then `logError` on the same
record, *two* lines stand in the file — each completing call appends, there
is no first-completion-only guard. -/
theorem persist_twice_counterexample :
    let st1 := logRequest false (lit "a") 0 (lit "POST") (lit "/v1/messages")
      [] .undef LoggerState.init
    let st2 := logResponse (lit "a") 200 [] .undef 0 10 st1
    let st3 := logError (lit "a") (lit "boom") none st2
    st3.file.length = 2 ∧ ¬ st3.file.length = 1 := by
  constructor
  · rfl
  · decide

/-- C2 amended: every completing call (`logResponse` / `logError`) on a
*present* id appends exactly one line to the file, whether or not the record
was already completed. -/
theorem persist_per_completing_call (st : LoggerState) (id : Str)
    (h : (mapGet st.logs id).isSome = true) (status : Int) (headers : JsObj)
    (body : JsVal) (t0 t1 : Int) (msg : Str) (stack : Option Str) :
    (logResponse id status headers body t0 t1 st).file.length = st.file.length + 1 ∧
    (logError id msg stack st).file.length = st.file.length + 1 := by
  unfold logResponse logError writeToFile
  cases hm : mapGet st.logs id with
  | none => rw [hm] at h; simp at h
  | some e => simp

/-- Witness for C2's amended theorem on a store holding one record. -/
theorem persist_per_completing_call_witness :
    ((logResponse (lit "a") 200 [] .undef 0 10
      (logRequest false (lit "a") 0 (lit "POST") (lit "/v1/messages") [] .undef
        LoggerState.init)).file.length =
      (logRequest false (lit "a") 0 (lit "POST") (lit "/v1/messages") [] .undef
        LoggerState.init).file.length + 1) := by
  exact (persist_per_completing_call
    (logRequest false (lit "a") 0 (lit "POST") (lit "/v1/messages") [] .undef
      LoggerState.init)
    (lit "a") rfl 200 [] .undef 0 10 (lit "m") none).1

/-- C6 counterexample: a second `logRequest` under an existing id resets the
record — the routing stage written in between is wiped back to its default,
so the existing record is *not* left untouched. -/
theorem duplicate_create_counterexample :
    let a := lit "a"
    let st1 := logRequest false a 0 (lit "POST") (lit "/u") [] .undef LoggerState.init
    let st2 := logRouting false a 42 (lit "claude-3") (lit "default") st1
    let st3 := logRequest false a 1 (lit "POST") (lit "/u") [] .undef st2
    ((getLogById a st2).map (·.routing) = some ⟨42, lit "claude-3", lit "default"⟩) ∧
    ((getLogById a st3).map (·.routing) = some ⟨0, [], []⟩) ∧
    ¬ ((getLogById a st3).map (·.routing) = some ⟨42, lit "claude-3", lit "default"⟩) := by
  refine ⟨rfl, rfl, ?_⟩
  decide

/-- C6 amended: `logRequest` on an existing id does not fail and does not
leave the record untouched: it unconditionally replaces it with a fresh
default record (in place, the store size unchanged). -/
theorem logRequest_overwrites_existing (st : LoggerState) (id : Str)
    (ts : Nat) (method url : Str) (headers : JsObj) (body : JsVal)
    (hlen : st.logs.length ≤ maxLogs) (hmem : (mapGet st.logs id).isSome = true) :
    mapGet (logRequest false id ts method url headers body st).logs id =
      some (freshEntry id ts method url headers body) ∧
    (logRequest false id ts method url headers body st).logs.length =
      st.logs.length := by
  have hset : (mapSet st.logs id (freshEntry id ts method url headers body)).length
      = st.logs.length := length_mapSet_of_isSome st.logs id _ hmem
  have hnotgt : ¬ (mapSet st.logs id (freshEntry id ts method url headers body)).length
      > maxLogs := by
    rw [hset]
    exact Nat.not_lt.mpr hlen
  have hcl : cleanup (mapSet st.logs id (freshEntry id ts method url headers body))
      = mapSet st.logs id (freshEntry id ts method url headers body) := by
    unfold cleanup
    rw [if_neg hnotgt]
  constructor
  · show mapGet (cleanup (mapSet st.logs id (freshEntry id ts method url headers body))) id = _
    rw [hcl]
    exact mapGet_mapSet_self st.logs id _
  · show (cleanup (mapSet st.logs id (freshEntry id ts method url headers body))).length = _
    rw [hcl, hset]

/-- Witness for C6's amended theorem. -/
theorem logRequest_overwrites_existing_witness :
    mapGet (logRequest false (lit "a") 1 (lit "GET") (lit "/u") [] .undef
      (logRequest false (lit "a") 0 (lit "POST") (lit "/u") [] .undef
        LoggerState.init)).logs (lit "a") =
      some (freshEntry (lit "a") 1 (lit "GET") (lit "/u") [] .undef) := by
  exact (logRequest_overwrites_existing
    (logRequest false (lit "a") 0 (lit "POST") (lit "/u") [] .undef LoggerState.init)
    (lit "a") 1 (lit "GET") (lit "/u") [] .undef (by decide) rfl).1

/-- C7 counterexample: an intercepted call whose accumulated body is not
valid JSON (`"hello"`), with a correlation id armed and the record present:
the capture is *dropped* — the record's `transformedRequest` stays unset and
the store is unchanged (the outbound call itself is still forwarded), rather
than being recorded with the raw text as claimed.  The response side behaves
the same way. -/
theorem parse_failure_drop_counterexample :
    let a := lit "a"
    let st1 := logRequest false a 0 (lit "POST") (lit "/v1/messages") [] .undef
      LoggerState.init
    let r := interceptEnd false (some a) provUrl provMethod [] provName
      (lit "hello") st1
    jsonParse (lit "hello") = none ∧
    r.st = st1 ∧
    (getLogById a r.st).bind (·.transformedRequest) = none ∧
    r.callForwarded = true ∧
    interceptResponseEnd false (some a) 200 [] 0 120 (lit "hello") st1 = st1 :=
  ⟨rfl, rfl, rfl, rfl, rfl⟩

/-- C7 amended: when the accumulated request or response body of an
intercepted provider call fails to parse as JSON, the capture is dropped —
the Record Store is left entirely unchanged (no raw-text fallback) — while
the outbound call itself still proceeds. -/
theorem parse_failure_drops_capture (st : LoggerState) (rid : Str)
    (disabled : Bool) (url method provider accumulated : Str) (headers : JsObj)
    (status t0 t1 : Int) (h : parseAccumulated accumulated = none) :
    interceptEnd disabled (some rid) url method headers provider accumulated st =
      ⟨st, accumulated, true⟩ ∧
    interceptResponseEnd disabled (some rid) status headers t0 t1 accumulated st
      = st := by
  unfold interceptEnd interceptResponseEnd
  rw [h]
  simp

/-- Witness for C7's amended theorem at the concrete non-JSON body `"hi"`. -/
theorem parse_failure_drops_capture_witness :
    parseAccumulated (lit "hi") = none ∧
    interceptEnd false (some (lit "a")) provUrl provMethod [] provName
      (lit "hi") LoggerState.init = ⟨LoggerState.init, lit "hi", true⟩ :=
  ⟨rfl, (parse_failure_drops_capture LoggerState.init (lit "a") false provUrl
    provMethod provName (lit "hi") [] 200 0 120 rfl).1⟩

/-- C4: after every `logRequest` on a unique-keyed store, the store holds at
most `maxLogs` (1000) records.  When the insertion pushes it over the bound,
the survivors are exactly (up to permutation, iteration order preserved from
the original map) the suffix of the stable timestamp sort — so the evicted
records are precisely the timestamp-smallest ones, completion status
irrelevant: every evicted record's timestamp is at most every survivor's, and
on a timestamp tie the earlier-inserted record is evicted first. -/
theorem logRequest_bounded_oldest_eviction (st : LoggerState)
    (hnd : (st.logs.map Prod.fst).Nodup) (id : Str) (ts : Nat)
    (method url : Str) (headers : JsObj) (body : JsVal) :
    let st' := logRequest false id ts method url headers body st
    let next := mapSet st.logs id (freshEntry id ts method url headers body)
    let entries := next.mergeSort tsLE
    let k := entries.length - maxLogs
    st'.logs.length ≤ maxLogs ∧
    (next.length > maxLogs →
      st'.logs ~ entries.drop k ∧
      (∀ d ∈ entries.take k, ∀ e ∈ st'.logs, d.2.timestamp ≤ e.2.timestamp) ∧
      (∀ d e : Str × RequestLogEntry, [e, d] <+ next →
        e.2.timestamp = d.2.timestamp →
        d ∈ entries.take k → e ∈ entries.take k)) := by
  intro st' next entries k
  have hndN : (next.map Prod.fst).Nodup :=
    nodup_keys_mapSet st.logs id _ hnd
  have hst' : st'.logs = cleanup next := rfl
  by_cases hgt : next.length > maxLogs
  · obtain ⟨hlen, hpermD, hmin⟩ := cleanup_spec next hndN hgt
    refine ⟨?_, fun _ => ⟨?_, ?_, ?_⟩⟩
    · rw [hst', hlen]
    · rw [hst']
      exact hpermD
    · rw [hst']
      exact hmin
    · intro d e hsub hts hd
      exact take_mergeSort_stable next (hndN.of_map) k d e hsub hts hd
  · constructor
    · rw [hst']
      have : cleanup next = next := by
        unfold cleanup
        rw [if_neg hgt]
      rw [this]
      omega
    · intro hcontr
      exact absurd hcontr hgt

/-- Witness for C4 on a concrete store. -/
theorem logRequest_bounded_oldest_eviction_witness :
    (logRequest false (lit "b") 1 (lit "GET") (lit "/u") [] .undef
      (logRequest false (lit "a") 0 (lit "POST") (lit "/u") [] .undef
        LoggerState.init)).logs.length ≤ maxLogs := by
  exact (logRequest_bounded_oldest_eviction
    (logRequest false (lit "a") 0 (lit "POST") (lit "/u") [] .undef
      LoggerState.init)
    (by decide) (lit "b") 1 (lit "GET") (lit "/u") [] .undef).1

/-- C8: `sanitizeBody` threshold behavior — textual bodies at or under 1000
units are returned structurally unchanged; textual bodies over it end in the
truncation marker at the fixed bounded length `1000 + |marker|`; structured
bodies are serialized and the same threshold and marker applied (the pretty
serialization is the one truncated), degrading to the fixed unparseable
marker when serialization fails. -/
theorem sanitizeBody_threshold :
    (∀ s : Str, s.length ≤ BODY_LIMIT → sanitizeBody (.str s) = .str s) ∧
    (∀ s : Str, s.length > BODY_LIMIT →
       sanitizeBody (.str s) = .str (s.take BODY_LIMIT ++ TRUNCATED_SUFFIX) ∧
       TRUNCATED_SUFFIX <:+ s.take BODY_LIMIT ++ TRUNCATED_SUFFIX ∧
       (s.take BODY_LIMIT ++ TRUNCATED_SUFFIX).length
         = BODY_LIMIT + TRUNCATED_SUFFIX.length) ∧
    (∀ j : Json, (stringifyCompact j).length ≤ BODY_LIMIT →
       sanitizeBody (.obj j) = .obj j) ∧
    (∀ j : Json, (stringifyCompact j).length > BODY_LIMIT →
       sanitizeBody (.obj j)
         = .str ((stringifyPretty 0 j).take BODY_LIMIT ++ TRUNCATED_SUFFIX) ∧
       TRUNCATED_SUFFIX <:+ (stringifyPretty 0 j).take BODY_LIMIT ++ TRUNCATED_SUFFIX ∧
       ((stringifyPretty 0 j).take BODY_LIMIT ++ TRUNCATED_SUFFIX).length
         = BODY_LIMIT + TRUNCATED_SUFFIX.length) ∧
    sanitizeBody .objCircular = .str UNPARSEABLE := by
  refine ⟨fun s hs => ?_, fun s hs => ?_, fun j hj => ?_, fun j hj => ?_, rfl⟩
  · rw [sanitizeBody_str, if_neg (by omega)]
  · refine ⟨by rw [sanitizeBody_str, if_pos hs], List.suffix_append _ _, ?_⟩
    rw [List.length_append, List.length_take]
    have hbl : BODY_LIMIT = 1000 := rfl
    omega
  · rw [sanitizeBody_obj, if_neg (by omega)]
  · have hple : BODY_LIMIT < (stringifyPretty 0 j).length :=
      lt_of_lt_of_le hj (length_compact_le_pretty 0 j)
    refine ⟨by rw [sanitizeBody_obj, if_pos hj], List.suffix_append _ _, ?_⟩
    rw [List.length_append, List.length_take]
    have hbl : BODY_LIMIT = 1000 := rfl
    omega

/-- Witness for C8 at concrete small/oversized textual and structured
bodies. -/
theorem sanitizeBody_threshold_witness :
    sanitizeBody (.str (lit "hi")) = .str (lit "hi") ∧
    sanitizeBody (.str (List.replicate 1001 'a')) =
      .str ((List.replicate 1001 'a').take BODY_LIMIT ++ TRUNCATED_SUFFIX) ∧
    sanitizeBody (.obj .null) = .obj .null ∧
    sanitizeBody (.obj (.str (List.replicate 1001 'a')))
      = .str ((stringifyPretty 0 (.str (List.replicate 1001 'a'))).take BODY_LIMIT
          ++ TRUNCATED_SUFFIX) ∧
    sanitizeBody .objCircular = .str UNPARSEABLE :=
  ⟨sanitizeBody_threshold.1 (lit "hi") (by decide),
   (sanitizeBody_threshold.2.1 (List.replicate 1001 'a')
     (by simp only [List.length_replicate, BODY_LIMIT]; omega)).1,
   sanitizeBody_threshold.2.2.1 .null (by decide),
   (sanitizeBody_threshold.2.2.2.1 (.str (List.replicate 1001 'a'))
     (by simp only [stringifyCompact, jsonQuote, List.length_cons,
           List.length_append, List.length_replicate, List.length_nil,
           BODY_LIMIT]
         omega)).1,
   sanitizeBody_threshold.2.2.2.2⟩

/-- Re-truncating a string whose first segment already has exactly the
threshold length reproduces it unchanged. -/
theorem take_trunc_stable (t : Str) (ht : t.length = BODY_LIMIT) :
    (t ++ TRUNCATED_SUFFIX).take BODY_LIMIT ++ TRUNCATED_SUFFIX
      = t ++ TRUNCATED_SUFFIX := by
  rw [List.take_append_of_le_length (le_of_eq ht.symm),
    List.take_of_length_le (le_of_eq ht)]

/-- C9: both sanitizers are idempotent — re-applying `sanitizeBody` (also on
already-truncated strings carrying the marker) or `sanitizeHeaders` yields
the same result as one application. -/
theorem sanitize_idempotent :
    (∀ b : JsVal, sanitizeBody (sanitizeBody b) = sanitizeBody b) ∧
    (∀ h : JsObj, sanitizeHeaders (sanitizeHeaders h) = sanitizeHeaders h) := by
  constructor
  · intro b
    cases b with
    | undef => rfl
    | null => rfl
    | bool b => cases b <;> rfl
    | num n => rw [sanitizeBody_num, sanitizeBody_num]
    | objCircular =>
        show sanitizeBody (.str UNPARSEABLE) = .str UNPARSEABLE
        rw [sanitizeBody_str, if_neg (by decide)]
    | str s =>
        rw [sanitizeBody_str]
        by_cases hl : s.length > BODY_LIMIT
        · rw [if_pos hl, sanitizeBody_str]
          have h1 : (s.take BODY_LIMIT).length = BODY_LIMIT := by
            rw [List.length_take]
            omega
          have h2 : (s.take BODY_LIMIT ++ TRUNCATED_SUFFIX).length > BODY_LIMIT := by
            rw [List.length_append, h1]
            have : TRUNCATED_SUFFIX.length = 15 := rfl
            omega
          rw [if_pos h2]
          rw [take_trunc_stable _ h1]
        · rw [if_neg hl, sanitizeBody_str, if_neg hl]
    | obj j =>
        rw [sanitizeBody_obj]
        by_cases hl : (stringifyCompact j).length > BODY_LIMIT
        · rw [if_pos hl, sanitizeBody_str]
          have hple : BODY_LIMIT < (stringifyPretty 0 j).length :=
            lt_of_lt_of_le hl (length_compact_le_pretty 0 j)
          have h1 : ((stringifyPretty 0 j).take BODY_LIMIT).length = BODY_LIMIT := by
            rw [List.length_take]
            omega
          have h2 : ((stringifyPretty 0 j).take BODY_LIMIT
              ++ TRUNCATED_SUFFIX).length > BODY_LIMIT := by
            rw [List.length_append, h1]
            have : TRUNCATED_SUFFIX.length = 15 := rfl
            omega
          rw [if_pos h2]
          rw [take_trunc_stable _ h1]
        · rw [if_neg hl, sanitizeBody_obj, if_neg hl]
  · intro h
    have hax : authKey ≠ apiKeyHeader := by decide
    have hxa : apiKeyHeader ≠ authKey := fun hh => hax hh.symm
    by_cases h1 : jsTruthy (objGet h (authKey)) = true
    · have ka : authKey ∈ h.map Prod.fst := mem_of_objGet_truthy _ _ h1
      by_cases h2 : jsTruthy (objGet h (apiKeyHeader)) = true
      · -- both redacted: sanitizeHeaders h = objSet (objSet h a R) x R
        have kx : apiKeyHeader ∈ h.map Prod.fst := mem_of_objGet_truthy _ _ h2
        have hsh : sanitizeHeaders h =
            objSet (objSet h (authKey) (.str REDACTED))
              (apiKeyHeader) (.str REDACTED) := by
          simp only [sanitizeHeaders]
          rw [if_pos h1, objGet_objSet_ne _ _ _ _ hax, if_pos h2]
        have ka' : authKey
            ∈ (objSet h (authKey) (.str REDACTED)).map Prod.fst := by
          rw [keys_objSet_of_mem _ _ _ ka]
          exact ka
        have kx' : apiKeyHeader
            ∈ (objSet h (authKey) (.str REDACTED)).map Prod.fst := by
          rw [keys_objSet_of_mem _ _ _ ka]
          exact kx
        rw [hsh]
        simp only [sanitizeHeaders]
        rw [objGet_objSet_ne _ _ _ _ hxa, objGet_objSet_self,
          if_pos jsTruthy_redacted]
        rw [objSet_comm_of_mem _ _ _ _ hxa _ kx' ka', objSet_objSet_same,
          objGet_objSet_self, if_pos jsTruthy_redacted, objSet_objSet_same]
      · -- only authorization redacted: sanitizeHeaders h = objSet h a R
        have hsh : sanitizeHeaders h =
            objSet h (authKey) (.str REDACTED) := by
          simp only [sanitizeHeaders]
          rw [if_pos h1, objGet_objSet_ne _ _ _ _ hax, if_neg h2]
        rw [hsh]
        simp only [sanitizeHeaders]
        rw [objGet_objSet_self, if_pos jsTruthy_redacted, objSet_objSet_same,
          objGet_objSet_ne _ _ _ _ hax, if_neg h2]
    · by_cases h2 : jsTruthy (objGet h (apiKeyHeader)) = true
      · -- only x-api-key redacted
        have hsh : sanitizeHeaders h =
            objSet h (apiKeyHeader) (.str REDACTED) := by
          simp only [sanitizeHeaders]
          rw [if_neg h1, if_pos h2]
        rw [hsh]
        simp only [sanitizeHeaders]
        rw [objGet_objSet_ne _ _ _ _ hxa, if_neg h1, objGet_objSet_self,
          if_pos jsTruthy_redacted, objSet_objSet_same]
      · -- nothing redacted
        have hsh : sanitizeHeaders h = h := by
          simp only [sanitizeHeaders]
          rw [if_neg h1, if_neg h2]
        rw [hsh, hsh]

/-- C1 (code bug): with the correlation context held in a single process-wide
slot, the program-order-valid interleaving
`[arm A, arm B, outbound-of-B, outbound-of-A, clear, clear]` of two
concurrent `/v1/messages` units of work mis-attributes A's outbound provider
call: both calls observe the id `B` armed by the other unit of work, so B's
record ends up carrying the transformed request of A's call and A's record
never receives its own. -/
theorem correlation_cross_attribution :
    let A : Str := lit "req_A"
    let B := lit "req_B"
    let bodyA := lit "\"from-A\""
    let bodyB := lit "\"from-B\""
    let st0 := logRequest false B 1 (lit "POST") (lit "/v1/messages") [] .undef
      (logRequest false A 0 (lit "POST") (lit "/v1/messages") [] .undef
        LoggerState.init)
    let sched : List TraceStep :=
      [.arm A, .arm B, .outbound B bodyB, .outbound A bodyA, .disarm, .disarm]
    let final := traceRun false ⟨none, st0⟩ sched
    sched.indexOf (TraceStep.arm A) < sched.indexOf (TraceStep.outbound A bodyA) ∧
    sched.indexOf (TraceStep.arm B) < sched.indexOf (TraceStep.outbound B bodyB) ∧
    ((getLogById B final.logger).bind (·.transformedRequest)).map (·.body) =
      some (.str (lit "from-A")) ∧
    (getLogById A final.logger).bind (·.transformedRequest) = none :=
  ⟨by decide, by decide, rfl, rfl⟩

end CCR
